import Mathlib

/-!
Verification of the sentiment aggregation and comparative ranking core of
the cloud-sentiment-analyzer repository.

Modelling conventions:
* Python `dict`s are modelled as insertion-ordered association lists
  (`List (String × _)`); iterating over a dict's items is iterating over
  the list, and `d[k]` is `lookupA d k : Option _` (a `KeyError` is `none`,
  and any failure propagates as `none` through the whole call).
* Python floats are modelled as exact rationals `ℚ`.
* `sorted(xs, key=f, reverse=True)` (a stable sort, descending on the key)
  is modelled by `List.insertionSort` with the relation `keyGE f`
  (`f y ≤ f x`), which is stable in the same direction.
* The insight strings built by f-string interpolation are modelled by the
  `Insight` inductive type carrying exactly the data interpolated into
  each message (aspect, provider names, positive ratios).
-/

/-- One classified sentence, as appended to `results[provider][area]` in
`cloud_sentiment_analyzer.py` (keys: sentence, sentiment, confidence,
source, url, provider, aspect). -/
structure OpinionRecord where
  sentence : String
  sentiment : String
  confidence : ℚ
  source : String
  url : String
  provider : String
  aspect : String
deriving DecidableEq, Repr

/-- Aspect → list of records: the inner dict of the results structure. -/
abbrev AspectMap := List (String × List OpinionRecord)

/-- `{provider: {aspect: [sentiment_data]}}`, the `results` argument. -/
abbrev OpinionStore := List (String × AspectMap)

/-- Dict lookup `d[k]`, `none` on `KeyError`. -/
def lookupA (l : List (String × β)) (k : String) : Option β :=
  (l.find? (fun x => x.1 == k)).map Prod.snd

/-- `statistics.mean`: sum divided by length (exact, over `ℚ`). -/
def qmean (l : List ℚ) : ℚ := l.sum / (l.length : ℚ)

/-- Python's builtin `min` on two numbers: the first argument when it is
less than or equal to the second, else the second. -/
def qmin (a b : ℚ) : ℚ := if a ≤ b then a else b

/-- The per-(provider, aspect) statistics dict built inside
`calculate_provider_rankings`. -/
structure ProviderAspectScore where
  sentiment_score : ℚ
  positive_ratio : ℚ
  negative_ratio : ℚ
  total_opinions : ℕ
  avg_confidence : ℚ
deriving DecidableEq, Repr

/-- Descending-on-key comparison used to model
`sorted(xs, key=..., reverse=True)`. -/
def keyGE (key : α → ℚ) : α → α → Prop := fun x y => key y ≤ key x

instance (key : α → ℚ) : DecidableRel (keyGE key) :=
  fun x y => inferInstanceAs (Decidable (key y ≤ key x))

instance (key : α → ℚ) : IsTotal α (keyGE key) :=
  ⟨fun a b => (le_total (key b) (key a)).imp id id⟩

instance (key : α → ℚ) : IsTrans α (keyGE key) :=
  ⟨fun _ _ _ hab hbc => le_trans hbc hab⟩

/-- Python's `sorted(xs, key=f, reverse=True)`: a stable sort placing
larger keys first, ties keeping input order. -/
def sortByKeyDesc (key : α → ℚ) (l : List α) : List α :=
  List.insertionSort (keyGE key) l

/-- The sort key of `calculate_provider_rankings`:
`lambda x: x[1]['sentiment_score']`. -/
def sentKey (x : String × ProviderAspectScore) : ℚ := x.2.sentiment_score

/-- The body of the per-provider loop of `calculate_provider_rankings`
(lines 39-66): the statistics computed for one bucket `opinions`. -/
def providerScore (opinions : List OpinionRecord) : ProviderAspectScore :=
  if opinions.isEmpty then
    { sentiment_score := 0, positive_ratio := 0, negative_ratio := 0,
      total_opinions := 0, avg_confidence := 0 }
  else
    let total := opinions.length
    let positive := (opinions.filter fun op => op.sentiment == "Positive").length
    let negative := (opinions.filter fun op => op.sentiment == "Negative").length
    let pos_ratio : ℚ := if 0 < total then (positive : ℚ) / (total : ℚ) else 0
    let neg_ratio : ℚ := if 0 < total then (negative : ℚ) / (total : ℚ) else 0
    let sentiment_score := pos_ratio - neg_ratio
    let avg_confidence : ℚ :=
      if opinions.isEmpty then 0 else qmean (opinions.map fun op => op.confidence)
    { sentiment_score := sentiment_score, positive_ratio := pos_ratio,
      negative_ratio := neg_ratio, total_opinions := total,
      avg_confidence := avg_confidence }

/-- The value stored at `aspect_rankings[aspect]`. -/
structure AspectRanking where
  provider_scores : List (String × ProviderAspectScore)
  ranked_providers : List (String × ProviderAspectScore)
  best_provider : Option String
  worst_provider : Option String
deriving DecidableEq, Repr

/-- Lines 69-80: rank the providers of one aspect and record best/worst
(`ranked_providers[0][0]` / `ranked_providers[-1][0]`, `None` if empty). -/
def mkAspectRanking (provider_scores : List (String × ProviderAspectScore)) :
    AspectRanking :=
  let ranked := sortByKeyDesc sentKey provider_scores
  { provider_scores := provider_scores
    ranked_providers := ranked
    best_provider := ranked.head?.map Prod.fst
    worst_provider := ranked.getLast?.map Prod.fst }

/-- The inner `for provider in results` loop for one aspect: each
`results[provider][aspect]` lookup may raise (`none`). -/
def buildScores (results : OpinionStore) (aspect : String) :
    Option (List (String × ProviderAspectScore)) :=
  match results with
  | [] => some []
  | (provider, amap) :: rest =>
    match lookupA amap aspect, buildScores rest aspect with
    | some opinions, some tail => some ((provider, providerScore opinions) :: tail)
    | _, _ => none

/-- The outer `for aspect in aspects` loop. -/
def buildRankings (results : OpinionStore) (aspects : List String) :
    Option (List (String × AspectRanking)) :=
  match aspects with
  | [] => some []
  | aspect :: rest =>
    match buildScores results aspect, buildRankings results rest with
    | some provider_scores, some tail =>
        some ((aspect, mkAspectRanking provider_scores) :: tail)
    | _, _ => none

/-- `calculate_provider_rankings` (comparative_sentiment.py, lines 14-82):
aspects are taken from the first provider's mapping; an empty `results`
yields an empty dict. -/
def calculate_provider_rankings (results : OpinionStore) :
    Option (List (String × AspectRanking)) :=
  match results with
  | [] => some []
  | (_, amap0) :: _ => buildRankings results (amap0.map Prod.fst)

/-- The inner `for aspect_data in aspect_rankings.values()` loop of
`calculate_overall_provider_rankings` (lines 108-111): for one provider,
collect `(sentiment_score, total_opinions)` of every aspect; the
`provider_scores[provider]` lookup may raise. -/
def collectProvider (aspect_rankings : List (String × AspectRanking))
    (provider : String) : Option (List (ℚ × ℕ)) :=
  match aspect_rankings with
  | [] => some []
  | ad :: rest =>
    match lookupA ad.2.provider_scores provider, collectProvider rest provider with
    | some pd, some tail => some ((pd.sentiment_score, pd.total_opinions) :: tail)
    | _, _ => none

/-- The `for provider in providers` loop (lines 104-116): a provider enters
`overall_scores` only when its `aspect_scores` list is non-empty. -/
def overallScores (aspect_rankings : List (String × AspectRanking)) :
    List String → Option (List (String × ℚ))
  | [] => some []
  | provider :: rest =>
    match collectProvider aspect_rankings provider, overallScores aspect_rankings rest with
    | some pairs, some tail =>
        if (pairs.map Prod.fst).isEmpty then some tail
        else
          some ((provider,
            qmean (pairs.map Prod.fst) *
              qmin 1 ((((pairs.map Prod.snd).sum : ℕ) : ℚ) / 100)) :: tail)
    | _, _ => none

/-- `calculate_overall_provider_rankings` (lines 85-118): providers are
taken from the first aspect's `provider_scores`; the result is
`sorted(overall_scores.items(), key=lambda x: x[1], reverse=True)`. -/
def calculate_overall_provider_rankings
    (aspect_rankings : List (String × AspectRanking)) :
    Option (List (String × ℚ)) :=
  match aspect_rankings with
  | [] => some []
  | (_, first_aspect) :: _ =>
    match overallScores aspect_rankings (first_aspect.provider_scores.map Prod.fst) with
    | some overall => some (sortByKeyDesc Prod.snd overall)
    | none => none

/-- One insight string, modelled by the data interpolated into it:
`noData` is the line "No data available for comparative analysis.";
`aspectLead a b w br wr` is the f-string of lines 151-154 (aspect title,
best provider, worst provider, their positive ratios as percentages);
`mostControversial a` is the f-string of line 165. -/
inductive Insight where
  | noData : Insight
  | aspectLead (aspect best worst : String)
      (best_positive_ratio worst_positive_ratio : ℚ) : Insight
  | mostControversial (aspect : String) : Insight
deriving DecidableEq, Repr

/-- Body of the first loop of `generate_comparative_insights` (lines
137-154): skip aspects with fewer than two ranked providers, then append
a statement when `score_diff > 0.1`. -/
def aspectLeadStep (acc : List Insight) (entry : String × AspectRanking) :
    List Insight :=
  let ranked := entry.2.ranked_providers
  if ranked.length < 2 then acc
  else
    match ranked.head?, ranked.getLast? with
    | some best, some worst =>
      if 1/10 < best.2.sentiment_score - worst.2.sentiment_score then
        acc ++ [Insight.aspectLead entry.1 best.1 worst.1
                  best.2.positive_ratio worst.2.positive_ratio]
      else acc
    | _, _ => acc

/-- `statistics.stdev(scores)` squared: the sample variance
sum((x - mean)^2) / (n - 1).  The source takes the aspect maximising
`stdev`; since the square root is monotone, that aspect is exactly the
one maximising this variance, which stays inside `ℚ`. -/
def sampleVariance (scores : List ℚ) : ℚ :=
  let m := qmean scores
  (scores.map fun x => (x - m) ^ 2).sum / ((scores.length : ℚ) - 1)

/-- Body of the second loop (lines 157-161): record the deviation of the
per-provider sentiment scores of every aspect with more than one score. -/
def varianceStep (acc : List (String × ℚ)) (entry : String × AspectRanking) :
    List (String × ℚ) :=
  let scores := entry.2.ranked_providers.map fun x => x.2.sentiment_score
  if 1 < scores.length then acc ++ [(entry.1, sampleVariance scores)] else acc

/-- The `aspect_variances` dict of lines 157-161. -/
def aspect_variances (aspect_rankings : List (String × AspectRanking)) :
    List (String × ℚ) :=
  aspect_rankings.foldl varianceStep []

/-- One comparison step of Python's `max(items, key=lambda x: x[1])`:
the current maximum is replaced only by a strictly larger candidate, so
the earliest maximum wins ties. -/
def maxStep (acc y : String × ℚ) : String × ℚ := if acc.2 < y.2 then y else acc

/-- `max(items, key=lambda x: x[1])`: first element with maximal second
component; `none` on an empty list (where Python would raise). -/
def firstMaxBySnd : List (String × ℚ) → Option (String × ℚ)
  | [] => none
  | x :: xs => some (xs.foldl maxStep x)

/-- `generate_comparative_insights` (lines 121-167). -/
def generate_comparative_insights
    (aspect_rankings : List (String × AspectRanking)) : List Insight :=
  if aspect_rankings.isEmpty then [Insight.noData]
  else
    let insights := aspect_rankings.foldl aspectLeadStep []
    match firstMaxBySnd (aspect_variances aspect_rankings) with
    | some most_controversial => insights ++ [Insight.mostControversial most_controversial.1]
    | none => insights

/-- One row of the DataFrame built by
`create_comparative_summary_dataframe` (lines 183-195). -/
structure SummaryRow where
  aspect : String
  provider : String
  rank : ℕ
  sentiment_score : ℚ
  positive_ratio : ℚ
  negative_ratio : ℚ
  total_opinions : ℕ
  avg_confidence : ℚ
  is_best : Bool
  is_worst : Bool
deriving DecidableEq, Repr

/-- `enumerate(xs, n)`. -/
def enumFrom (n : ℕ) : List α → List (ℕ × α)
  | [] => []
  | x :: xs => (n, x) :: enumFrom (n + 1) xs

/-- `create_comparative_summary_dataframe` (lines 170-197), as its list of
rows. -/
def create_comparative_summary_dataframe
    (aspect_rankings : List (String × AspectRanking)) : List SummaryRow :=
  aspect_rankings.flatMap fun ad =>
    (enumFrom 1 ad.2.ranked_providers).map fun rp =>
      { aspect := ad.1
        provider := rp.2.1
        rank := rp.1
        sentiment_score := rp.2.2.sentiment_score
        positive_ratio := rp.2.2.positive_ratio
        negative_ratio := rp.2.2.negative_ratio
        total_opinions := rp.2.2.total_opinions
        avg_confidence := rp.2.2.avg_confidence
        is_best := rp.1 == 1
        is_worst := rp.1 == ad.2.ranked_providers.length }

/-- The cells of one matrix column (lines 220-225, inner loop): score of
every provider for one aspect; each lookup may raise. -/
def matrixColumn (aspect_rankings : List (String × AspectRanking))
    (aspect : String) : List String → Option (List (String × ℚ))
  | [] => some []
  | provider :: rest =>
    match lookupA aspect_rankings aspect with
    | some ar =>
      match lookupA ar.provider_scores provider,
            matrixColumn aspect_rankings aspect rest with
      | some pd, some tail => some ((provider, pd.sentiment_score) :: tail)
      | _, _ => none
    | none => none

/-- The `matrix_data` dict (lines 218-225). -/
def matrixData (aspect_rankings : List (String × AspectRanking))
    (providers : List String) :
    List String → Option (List (String × List (String × ℚ)))
  | [] => some []
  | aspect :: rest =>
    match matrixColumn aspect_rankings aspect providers,
          matrixData aspect_rankings providers rest with
    | some col, some tail => some ((aspect, col) :: tail)
    | _, _ => none

/-- `create_provider_comparison_matrix` (lines 200-228), as the DataFrame
index (the providers of the first aspect) and the aspect-keyed columns;
the empty input yields the empty DataFrame. -/
def create_provider_comparison_matrix
    (aspect_rankings : List (String × AspectRanking)) :
    Option (List String × List (String × List (String × ℚ))) :=
  match aspect_rankings with
  | [] => some ([], [])
  | (_, first_aspect) :: _ =>
    let providers := first_aspect.provider_scores.map Prod.fst
    let aspects := aspect_rankings.map Prod.fst
    match matrixData aspect_rankings providers aspects with
    | some data => some (providers, data)
    | none => none

/-- The dictionary returned by `postprocess_sentiment_results`. -/
structure PostResults where
  aspect_rankings : List (String × AspectRanking)
  overall_rankings : List (String × ℚ)
  insights : List Insight
  comparative_summary : List SummaryRow
  comparison_matrix : List String × List (String × List (String × ℚ))
deriving DecidableEq, Repr

/-- `postprocess_sentiment_results` (lines 231-260). -/
def postprocess_sentiment_results (results : OpinionStore) : Option PostResults :=
  match calculate_provider_rankings results with
  | none => none
  | some aspect_rankings =>
    match calculate_overall_provider_rankings aspect_rankings,
          create_provider_comparison_matrix aspect_rankings with
    | some overall_rankings, some comparison_matrix =>
        some { aspect_rankings := aspect_rankings
               overall_rankings := overall_rankings
               insights := generate_comparative_insights aspect_rankings
               comparative_summary := create_comparative_summary_dataframe aspect_rankings
               comparison_matrix := comparison_matrix }
    | _, _ => none

/-- `\w` of Python's `re` restricted to ASCII: letters, digits, underscore
(the corpus handled by the analyzer is ASCII). -/
def wordChar (c : Char) : Bool := c.isAlphanum || c == '_'

/-- Word-character test on an optional character; out-of-range text
positions count as non-word. -/
def isWordCharO : Option Char → Bool
  | none => false
  | some c => wordChar c

/-- `\b` of Python's `re`: position `i` of `t` is a word boundary iff
exactly one of the characters around it is a word character. -/
def boundaryAt (t : List Char) (i : ℕ) : Bool :=
  isWordCharO (if i = 0 then none else t.get? (i - 1)) != isWordCharO (t.get? i)

/-- `contains_whole_word` (cloud_sentiment_analyzer.py, lines 93-95):
`re.search(r"\b" + re.escape(word) + r"\b", text, re.IGNORECASE)`.
`re.escape` makes the word literal; `IGNORECASE` is modelled by
lowercasing both sides (exact on ASCII); the search succeeds iff the
lowered word occurs at some position flanked by word boundaries. -/
def contains_whole_word (word text : String) : Bool :=
  let w := word.toList.map Char.toLower
  let t := text.toList.map Char.toLower
  (List.range (t.length + 1)).any fun i =>
    decide ((t.drop i).take w.length = w) && boundaryAt t i && boundaryAt t (i + w.length)

/-- `extract_relevant_sentences` (cloud_sentiment_analyzer.py, lines
97-103).  `nltk.sent_tokenize` is an external collaborator, passed as the
`sent_tokenize` parameter; a missing text (`None`, modelled by `none`) is
replaced by the empty string (`text or ""`). -/
def extract_relevant_sentences (sent_tokenize : String → List String)
    (text : Option String) (provider : String) (keywords : List String) :
    List String :=
  let sentences := sent_tokenize (text.getD (""))
  sentences.filter fun sent =>
    contains_whole_word provider sent &&
      keywords.any fun kw => contains_whole_word kw sent

/-! Characterisations of the two accumulating loops of
`generate_comparative_insights`, used to state what one aspect
contributes. -/

/-- The statement (if any) that the first loop of
`generate_comparative_insights` emits for one aspect entry. -/
def perAspectInsight (entry : String × AspectRanking) : Option Insight :=
  let ranked := entry.2.ranked_providers
  if ranked.length < 2 then none
  else
    match ranked.head?, ranked.getLast? with
    | some best, some worst =>
      if 1/10 < best.2.sentiment_score - worst.2.sentiment_score then
        some (Insight.aspectLead entry.1 best.1 worst.1
                best.2.positive_ratio worst.2.positive_ratio)
      else none
    | _, _ => none

/-- The `aspect_variances` entry (if any) contributed by one aspect. -/
def varianceOpt (entry : String × AspectRanking) : Option (String × ℚ) :=
  let scores := entry.2.ranked_providers.map fun x => x.2.sentiment_score
  if 1 < scores.length then some (entry.1, sampleVariance scores) else none

/-! ### Concrete inputs used to instantiate the theorems -/

/-- A record with the given sentiment and confidence. -/
def wRec (sentiment : String) (confidence : ℚ) : OpinionRecord :=
  { sentence := ("s"), sentiment := sentiment, confidence := confidence,
    source := ("src"), url := ("u"), provider := ("AWS"), aspect := ("cost") }

def wBucket : List OpinionRecord :=
  [wRec ("Positive") 1, wRec ("Negative") (1/2), wRec ("Neutral") (1/4)]

/-- Two providers, one aspect; the second provider's bucket is empty, and
both end with sentiment score 0 (a tie). -/
def wStore : OpinionStore :=
  [(("AWS"), [(("cost"), wBucket)]), (("Azure"), [(("cost"), [])])]

def wScores : List (String × ProviderAspectScore) :=
  [(("AWS"), providerScore wBucket), (("Azure"), providerScore [])]

def wRankings : List (String × AspectRanking) :=
  [(("cost"), mkAspectRanking wScores)]

/-- A store whose second provider lacks the first provider's aspect. -/
def wStoreBad : OpinionStore :=
  [(("AWS"), [(("cost"), wBucket)]), (("Azure"), [(("support"), [])])]

/-- One provider with raw mean sentiment score 0.8 over 50 opinions. -/
def wAspectRankingsDamp : List (String × AspectRanking) :=
  [(("cost"), mkAspectRanking
      [(("AWS"),
        { sentiment_score := 4/5, positive_ratio := 4/5, negative_ratio := 0,
          total_opinions := 50, avg_confidence := 1 })])]

/-- One aspect, two providers with scores 1 and -1: a clear winner and a
positive sample variance. -/
def wScoresGap : List (String × ProviderAspectScore) :=
  [(("AWS"), providerScore [wRec ("Positive") 1]),
   (("Azure"), providerScore [wRec ("Negative") 1])]

def wRankingsGap : List (String × AspectRanking) :=
  [(("cost"), mkAspectRanking wScoresGap)]

/-- A stand-in sentence tokenizer honouring the `sent_tokenize` contract
on empty input. -/
def wTok (t : String) : List String := if t.isEmpty then [] else [t]

/-! ### Helper lemmas about the stable descending sort -/

theorem filter_orderedInsert_key (key : α → ℚ) (q : ℚ) (a : α) :
    ∀ l : List α,
      (List.orderedInsert (keyGE key) a l).filter (fun x => decide (key x = q)) =
        if key a = q then a :: l.filter (fun x => decide (key x = q))
        else l.filter (fun x => decide (key x = q))
  | [] => by
    by_cases h : key a = q <;> simp [List.orderedInsert, h]
  | b :: t => by
    by_cases hab : keyGE key a b
    · by_cases h : key a = q <;>
        simp [List.orderedInsert, if_pos hab, List.filter_cons, h]
    · have hlt : key a < key b := lt_of_not_le hab
      by_cases h : key a = q
      · have hb : ¬ key b = q := by
          intro hb
          rw [h, hb] at hlt
          exact lt_irrefl q hlt
        simp [List.orderedInsert, if_neg hab, List.filter_cons, h, hb,
          filter_orderedInsert_key key q a t]
      · by_cases hb : key b = q <;>
          simp [List.orderedInsert, if_neg hab, List.filter_cons, h, hb,
            filter_orderedInsert_key key q a t]

/-- Stability of the modelled `sorted(..., reverse=True)`: for every key
value, the elements carrying that key appear in the sorted output in
exactly their input order. -/
theorem filter_sortByKeyDesc (key : α → ℚ) (q : ℚ) :
    ∀ l : List α,
      (sortByKeyDesc key l).filter (fun x => decide (key x = q)) =
        l.filter (fun x => decide (key x = q))
  | [] => rfl
  | a :: t => by
    have ht := filter_sortByKeyDesc key q t
    show (List.orderedInsert (keyGE key) a (List.insertionSort (keyGE key) t)).filter _ = _
    rw [filter_orderedInsert_key]
    by_cases h : key a = q <;>
      simp only [h, if_pos, if_neg, List.filter_cons, decide_eq_true_eq, ite_true,
        ite_false, not_false_iff] <;>
      simp [h, ← ht, sortByKeyDesc]

theorem sorted_sortByKeyDesc (key : α → ℚ) (l : List α) :
    List.Sorted (keyGE key) (sortByKeyDesc key l) :=
  List.sorted_insertionSort (keyGE key) l

theorem perm_sortByKeyDesc (key : α → ℚ) (l : List α) :
    List.Perm (sortByKeyDesc key l) l :=
  List.perm_insertionSort (keyGE key) l

/-! ### Helper lemmas about `calculate_provider_rankings` -/

theorem buildScores_map_fst (aspect : String) :
    ∀ (results : OpinionStore) (scores : List (String × ProviderAspectScore)),
      buildScores results aspect = some scores →
      scores.map Prod.fst = results.map Prod.fst := by
  intro results
  induction results with
  | nil =>
    intro scores h
    simp only [buildScores, Option.some.injEq] at h
    subst h
    rfl
  | cons pm rest ih =>
    intro scores h
    obtain ⟨p, amap⟩ := pm
    simp only [buildScores] at h
    split at h
    next opinions tail h1 h2 =>
      injection h with h3
      subst h3
      simp [ih tail h2]
    next => exact absurd h (by simp)

theorem buildScores_mem (aspect : String) :
    ∀ (results : OpinionStore) (scores : List (String × ProviderAspectScore))
      (p : String) (s : ProviderAspectScore),
      buildScores results aspect = some scores → (p, s) ∈ scores →
      ∃ amap ops, (p, amap) ∈ results ∧ lookupA amap aspect = some ops ∧
        s = providerScore ops := by
  intro results
  induction results with
  | nil =>
    intro scores p s h hm
    simp only [buildScores, Option.some.injEq] at h
    subst h
    simp at hm
  | cons pm rest ih =>
    intro scores p s h hm
    obtain ⟨q, amap⟩ := pm
    simp only [buildScores] at h
    split at h
    next opinions tail h1 h2 =>
      injection h with h3
      subst h3
      rcases List.mem_cons.mp hm with h4 | h4
      · have hp : p = q := congrArg Prod.fst h4
        have hs : s = providerScore opinions := congrArg Prod.snd h4
        subst hp
        exact ⟨amap, opinions, List.mem_cons_self _ _, h1, hs⟩
      · obtain ⟨amap2, ops2, hmem2, hl2, hs2⟩ := ih tail p s h2 h4
        exact ⟨amap2, ops2, List.mem_cons_of_mem _ hmem2, hl2, hs2⟩
    next => exact absurd h (by simp)

theorem buildRankings_mem (results : OpinionStore) :
    ∀ (aspects : List String) (rankings : List (String × AspectRanking))
      (aspect : String) (ar : AspectRanking),
      buildRankings results aspects = some rankings → (aspect, ar) ∈ rankings →
      ∃ scores, buildScores results aspect = some scores ∧
        ar = mkAspectRanking scores := by
  intro aspects
  induction aspects with
  | nil =>
    intro rankings aspect ar h hm
    simp only [buildRankings, Option.some.injEq] at h
    subst h
    simp at hm
  | cons a rest ih =>
    intro rankings aspect ar h hm
    simp only [buildRankings] at h
    split at h
    next provider_scores tail h1 h2 =>
      injection h with h3
      subst h3
      rcases List.mem_cons.mp hm with h4 | h4
      · have ha : aspect = a := congrArg Prod.fst h4
        have har : ar = mkAspectRanking provider_scores := congrArg Prod.snd h4
        subst ha
        exact ⟨provider_scores, h1, har⟩
      · exact ih tail aspect ar h2 h4
    next => exact absurd h (by simp)

theorem calc_rankings_mem (results : OpinionStore)
    (rankings : List (String × AspectRanking)) (aspect : String) (ar : AspectRanking)
    (h : calculate_provider_rankings results = some rankings)
    (hm : (aspect, ar) ∈ rankings) :
    ∃ scores, buildScores results aspect = some scores ∧
      ar = mkAspectRanking scores := by
  cases results with
  | nil =>
    simp only [calculate_provider_rankings, Option.some.injEq] at h
    subst h
    simp at hm
  | cons pm rest =>
    obtain ⟨p0, amap0⟩ := pm
    exact buildRankings_mem _ _ _ _ _ h hm

/-- The statistics of a non-empty bucket, with every `let` and live guard
of the source discharged. -/
theorem providerScore_ne_nil (ops : List OpinionRecord) (hne : ops ≠ []) :
    providerScore ops =
      { sentiment_score :=
          ((ops.filter fun op => op.sentiment == ("Positive")).length : ℚ) / (ops.length : ℚ) -
            ((ops.filter fun op => op.sentiment == ("Negative")).length : ℚ) / (ops.length : ℚ)
        positive_ratio :=
          ((ops.filter fun op => op.sentiment == ("Positive")).length : ℚ) / (ops.length : ℚ)
        negative_ratio :=
          ((ops.filter fun op => op.sentiment == ("Negative")).length : ℚ) / (ops.length : ℚ)
        total_opinions := ops.length
        avg_confidence := (ops.map fun op => op.confidence).sum / (ops.length : ℚ) } := by
  have h0 : ops.isEmpty = false := by
    cases ops with
    | nil => exact absurd rfl hne
    | cons a t => rfl
  have hlt : 0 < ops.length := List.length_pos.mpr hne
  simp [providerScore, h0, hlt, qmean]

/-- Every record is counted exactly once: the Positive count, the Negative
count and the count of everything else (Neutral, Error, ...) partition the
bucket. -/
theorem length_filter_partition (l : List OpinionRecord) :
    (l.filter fun op => op.sentiment == ("Positive")).length +
      (l.filter fun op => op.sentiment == ("Negative")).length +
      (l.filter fun op =>
        op.sentiment != ("Positive") && op.sentiment != ("Negative")).length =
    l.length := by
  induction l with
  | nil => rfl
  | cons a t ih =>
    cases hb1 : a.sentiment == ("Positive") <;> cases hb2 : a.sentiment == ("Negative")
    · have hb3 : (a.sentiment != ("Positive") && a.sentiment != ("Negative")) = true := by
        simp [bne, hb1, hb2]
      simp [List.filter_cons, hb1, hb2, hb3]
      omega
    · have hb3 : (a.sentiment != ("Positive") && a.sentiment != ("Negative")) = false := by
        simp [bne, hb2]
      simp [List.filter_cons, hb1, hb2, hb3]
      omega
    · have hb3 : (a.sentiment != ("Positive") && a.sentiment != ("Negative")) = false := by
        simp [bne, hb1]
      simp [List.filter_cons, hb1, hb2, hb3]
      omega
    · have e1 := eq_of_beq hb1
      have e2 := eq_of_beq hb2
      rw [e1] at e2
      exact absurd e2 (by decide)

theorem mkAspectRanking_fields (scores : List (String × ProviderAspectScore)) :
    (mkAspectRanking scores).provider_scores = scores ∧
    (mkAspectRanking scores).ranked_providers = sortByKeyDesc sentKey scores ∧
    (mkAspectRanking scores).best_provider =
      (sortByKeyDesc sentKey scores).head?.map Prod.fst ∧
    (mkAspectRanking scores).worst_provider =
      (sortByKeyDesc sentKey scores).getLast?.map Prod.fst :=
  ⟨rfl, rfl, rfl, rfl⟩

theorem providerScore_total (ops : List OpinionRecord) (hne : ops ≠ []) :
    (providerScore ops).total_opinions = ops.length := by
  rw [providerScore_ne_nil ops hne]

theorem providerScore_pos (ops : List OpinionRecord) (hne : ops ≠ []) :
    (providerScore ops).positive_ratio =
      ((ops.filter fun op => op.sentiment == ("Positive")).length : ℚ) / (ops.length : ℚ) := by
  rw [providerScore_ne_nil ops hne]

theorem providerScore_neg (ops : List OpinionRecord) (hne : ops ≠ []) :
    (providerScore ops).negative_ratio =
      ((ops.filter fun op => op.sentiment == ("Negative")).length : ℚ) / (ops.length : ℚ) := by
  rw [providerScore_ne_nil ops hne]

theorem providerScore_score (ops : List OpinionRecord) (hne : ops ≠ []) :
    (providerScore ops).sentiment_score =
      (providerScore ops).positive_ratio - (providerScore ops).negative_ratio := by
  rw [providerScore_ne_nil ops hne]

theorem providerScore_avg (ops : List OpinionRecord) (hne : ops ≠ []) :
    (providerScore ops).avg_confidence =
      (ops.map fun op => op.confidence).sum / (ops.length : ℚ) := by
  rw [providerScore_ne_nil ops hne]

/-- C1: for every OpinionStore and every (provider, aspect) bucket reached
by `calculate_provider_rankings`, the stored ProviderAspectScore is
all-zero when the bucket is empty; otherwise `total_opinions` is the
bucket length, `positive_ratio` / `negative_ratio` are the "Positive" /
"Negative" counts over the total, `sentiment_score` is their difference,
`avg_confidence` is the arithmetic mean of the confidences, and records
that are neither "Positive" nor "Negative" (Neutral, Error) enter the
total and the mean but neither ratio count — the last conjunct shows the
two ratio counts plus the remaining records partition the bucket. -/
theorem claim_C1_bucket_statistics
    (results : OpinionStore) (rankings : List (String × AspectRanking))
    (aspect : String) (ar : AspectRanking) (p : String) (s : ProviderAspectScore)
    (h : calculate_provider_rankings results = some rankings)
    (hm : (aspect, ar) ∈ rankings) (hs : (p, s) ∈ ar.provider_scores) :
    ∃ amap ops, (p, amap) ∈ results ∧ lookupA amap aspect = some ops ∧
      (ops = [] →
        s.sentiment_score = 0 ∧ s.positive_ratio = 0 ∧ s.negative_ratio = 0 ∧
          s.total_opinions = 0 ∧ s.avg_confidence = 0) ∧
      (ops ≠ [] →
        s.total_opinions = ops.length ∧
        s.positive_ratio =
          ((ops.filter fun op => op.sentiment == ("Positive")).length : ℚ) /
            (ops.length : ℚ) ∧
        s.negative_ratio =
          ((ops.filter fun op => op.sentiment == ("Negative")).length : ℚ) /
            (ops.length : ℚ) ∧
        s.sentiment_score = s.positive_ratio - s.negative_ratio ∧
        s.avg_confidence = (ops.map fun op => op.confidence).sum / (ops.length : ℚ) ∧
        (ops.filter fun op => op.sentiment == ("Positive")).length +
          (ops.filter fun op => op.sentiment == ("Negative")).length +
          (ops.filter fun op =>
            op.sentiment != ("Positive") && op.sentiment != ("Negative")).length =
          ops.length) := by
  obtain ⟨scores, hbs, har⟩ := calc_rankings_mem results rankings aspect ar h hm
  have hs2 : (p, s) ∈ scores := by
    rw [har] at hs
    exact hs
  obtain ⟨amap, ops, hmem, hl, hsps⟩ := buildScores_mem aspect results scores p s hbs hs2
  subst hsps
  refine ⟨amap, ops, hmem, hl, ?_, ?_⟩
  · intro hnil
    subst hnil
    exact ⟨rfl, rfl, rfl, rfl, rfl⟩
  · intro hne
    refine ⟨providerScore_total ops hne, providerScore_pos ops hne,
      providerScore_neg ops hne, providerScore_score ops hne,
      providerScore_avg ops hne, length_filter_partition ops⟩

theorem claim_C1_bucket_statistics_witness :
    calculate_provider_rankings wStore = some wRankings ∧
    (∃ amap ops, ((("AWS") : String), amap) ∈ wStore ∧ lookupA amap ("cost") = some ops ∧
      (ops = [] →
        (providerScore wBucket).sentiment_score = 0 ∧
          (providerScore wBucket).positive_ratio = 0 ∧
          (providerScore wBucket).negative_ratio = 0 ∧
          (providerScore wBucket).total_opinions = 0 ∧
          (providerScore wBucket).avg_confidence = 0) ∧
      (ops ≠ [] →
        (providerScore wBucket).total_opinions = ops.length ∧
        (providerScore wBucket).positive_ratio =
          ((ops.filter fun op => op.sentiment == ("Positive")).length : ℚ) /
            (ops.length : ℚ) ∧
        (providerScore wBucket).negative_ratio =
          ((ops.filter fun op => op.sentiment == ("Negative")).length : ℚ) /
            (ops.length : ℚ) ∧
        (providerScore wBucket).sentiment_score =
          (providerScore wBucket).positive_ratio -
            (providerScore wBucket).negative_ratio ∧
        (providerScore wBucket).avg_confidence =
          (ops.map fun op => op.confidence).sum / (ops.length : ℚ) ∧
        (ops.filter fun op => op.sentiment == ("Positive")).length +
          (ops.filter fun op => op.sentiment == ("Negative")).length +
          (ops.filter fun op =>
            op.sentiment != ("Positive") && op.sentiment != ("Negative")).length =
          ops.length)) :=
  ⟨rfl, claim_C1_bucket_statistics wStore wRankings ("cost") (mkAspectRanking wScores)
    ("AWS") (providerScore wBucket) rfl (by simp [wRankings])
    (by simp [mkAspectRanking, wScores, sortByKeyDesc])⟩

/-- C2: for every aspect produced by `calculate_provider_rankings`, the
`ranked_providers` list is sorted by `sentiment_score` descending; for
every score value the providers carrying it keep their `provider_scores`
order (stability), and `provider_scores` itself lists the providers in
input order; the ranking is a permutation of the scores;
`best_provider` / `worst_provider` are the head / last entry (hence `none`
exactly when the list is empty); and the output is deterministic in the
store contents. -/
theorem claim_C2_ranking_sorted_stable
    (results : OpinionStore) (rankings : List (String × AspectRanking))
    (aspect : String) (ar : AspectRanking)
    (h : calculate_provider_rankings results = some rankings)
    (hm : (aspect, ar) ∈ rankings) :
    ar.ranked_providers.Pairwise
      (fun x y => y.2.sentiment_score ≤ x.2.sentiment_score) ∧
    (∀ q : ℚ,
      ar.ranked_providers.filter (fun x => decide (x.2.sentiment_score = q)) =
        ar.provider_scores.filter (fun x => decide (x.2.sentiment_score = q))) ∧
    List.Perm ar.ranked_providers ar.provider_scores ∧
    ar.provider_scores.map Prod.fst = results.map Prod.fst ∧
    ar.best_provider = ar.ranked_providers.head?.map Prod.fst ∧
    ar.worst_provider = ar.ranked_providers.getLast?.map Prod.fst ∧
    (ar.ranked_providers = [] →
      ar.best_provider = none ∧ ar.worst_provider = none) ∧
    (∀ results2 : OpinionStore, results2 = results →
      calculate_provider_rankings results2 = some rankings) := by
  obtain ⟨scores, hbs, har⟩ := calc_rankings_mem results rankings aspect ar h hm
  subst har
  obtain ⟨hf1, hf2, hf3, hf4⟩ := mkAspectRanking_fields scores
  rw [hf1, hf2, hf3, hf4]
  refine ⟨sorted_sortByKeyDesc sentKey scores,
    fun q => filter_sortByKeyDesc sentKey q scores,
    perm_sortByKeyDesc sentKey scores,
    buildScores_map_fst aspect results scores hbs, rfl, rfl, ?_, ?_⟩
  · intro he
    rw [he]
    exact ⟨rfl, rfl⟩
  · intro results2 h2
    rw [h2]
    exact h

theorem claim_C2_ranking_sorted_stable_witness :
    calculate_provider_rankings wStore = some wRankings ∧
    ((("cost") : String), mkAspectRanking wScores) ∈ wRankings ∧
    ((mkAspectRanking wScores).ranked_providers.Pairwise
      (fun x y => y.2.sentiment_score ≤ x.2.sentiment_score) ∧
    (∀ q : ℚ,
      (mkAspectRanking wScores).ranked_providers.filter
          (fun x => decide (x.2.sentiment_score = q)) =
        (mkAspectRanking wScores).provider_scores.filter
          (fun x => decide (x.2.sentiment_score = q))) ∧
    List.Perm (mkAspectRanking wScores).ranked_providers
      (mkAspectRanking wScores).provider_scores ∧
    (mkAspectRanking wScores).provider_scores.map Prod.fst = wStore.map Prod.fst ∧
    (mkAspectRanking wScores).best_provider =
      (mkAspectRanking wScores).ranked_providers.head?.map Prod.fst ∧
    (mkAspectRanking wScores).worst_provider =
      (mkAspectRanking wScores).ranked_providers.getLast?.map Prod.fst ∧
    ((mkAspectRanking wScores).ranked_providers = [] →
      (mkAspectRanking wScores).best_provider = none ∧
        (mkAspectRanking wScores).worst_provider = none) ∧
    (∀ results2 : OpinionStore, results2 = wStore →
      calculate_provider_rankings results2 = some wRankings)) :=
  ⟨rfl, by simp [wRankings],
    claim_C2_ranking_sorted_stable wStore wRankings ("cost") (mkAspectRanking wScores)
      rfl (by simp [wRankings])⟩

/-- C7: every non-empty bucket's ProviderAspectScore satisfies
`-1 ≤ sentiment_score ≤ 1`, both ratios lie in `[0, 1]`, and the two
ratios sum to at most 1 (the remainder being the Neutral/Error share). -/
theorem claim_C7_score_bounds
    (results : OpinionStore) (rankings : List (String × AspectRanking))
    (aspect : String) (ar : AspectRanking) (p : String) (s : ProviderAspectScore)
    (h : calculate_provider_rankings results = some rankings)
    (hm : (aspect, ar) ∈ rankings) (hs : (p, s) ∈ ar.provider_scores)
    (hpos : 0 < s.total_opinions) :
    (-1 ≤ s.sentiment_score ∧ s.sentiment_score ≤ 1) ∧
    (0 ≤ s.positive_ratio ∧ s.positive_ratio ≤ 1) ∧
    (0 ≤ s.negative_ratio ∧ s.negative_ratio ≤ 1) ∧
    s.positive_ratio + s.negative_ratio ≤ 1 := by
  obtain ⟨scores, hbs, har⟩ := calc_rankings_mem results rankings aspect ar h hm
  have hs2 : (p, s) ∈ scores := by
    rw [har] at hs
    exact hs
  obtain ⟨amap, ops, hmem, hl, hsps⟩ := buildScores_mem aspect results scores p s hbs hs2
  subst hsps
  cases ops with
  | nil => simp [providerScore] at hpos
  | cons a t =>
    have hne : (a :: t) ≠ [] := by simp
    have hpart := length_filter_partition (a :: t)
    have hlen0 : (0 : ℚ) < (((a :: t).length : ℕ) : ℚ) := by
      exact_mod_cast Nat.succ_pos t.length
    have hcp : ((a :: t).filter fun op => op.sentiment == ("Positive")).length ≤
        (a :: t).length := List.length_filter_le _ _
    have hcn : ((a :: t).filter fun op => op.sentiment == ("Negative")).length ≤
        (a :: t).length := List.length_filter_le _ _
    have hsum : ((a :: t).filter fun op => op.sentiment == ("Positive")).length +
        ((a :: t).filter fun op => op.sentiment == ("Negative")).length ≤
        (a :: t).length := by omega
    have h1 : (0 : ℚ) ≤ (providerScore (a :: t)).positive_ratio := by
      rw [providerScore_pos _ hne]
      exact div_nonneg (Nat.cast_nonneg _) (le_of_lt hlen0)
    have h2 : (providerScore (a :: t)).positive_ratio ≤ 1 := by
      rw [providerScore_pos _ hne]
      exact (div_le_one hlen0).mpr (Nat.cast_le.mpr hcp)
    have h3 : (0 : ℚ) ≤ (providerScore (a :: t)).negative_ratio := by
      rw [providerScore_neg _ hne]
      exact div_nonneg (Nat.cast_nonneg _) (le_of_lt hlen0)
    have h4 : (providerScore (a :: t)).negative_ratio ≤ 1 := by
      rw [providerScore_neg _ hne]
      exact (div_le_one hlen0).mpr (Nat.cast_le.mpr hcn)
    have h5 : (providerScore (a :: t)).positive_ratio +
        (providerScore (a :: t)).negative_ratio ≤ 1 := by
      rw [providerScore_pos _ hne, providerScore_neg _ hne, div_add_div_same]
      refine (div_le_one hlen0).mpr ?_
      exact_mod_cast hsum
    have h6 := providerScore_score (a :: t) hne
    refine ⟨⟨?_, ?_⟩, ⟨h1, h2⟩, ⟨h3, h4⟩, h5⟩
    · rw [h6]
      linarith
    · rw [h6]
      linarith

theorem claim_C7_score_bounds_witness :
    calculate_provider_rankings wStore = some wRankings ∧
    0 < (providerScore wBucket).total_opinions ∧
    ((-1 ≤ (providerScore wBucket).sentiment_score ∧
        (providerScore wBucket).sentiment_score ≤ 1) ∧
      (0 ≤ (providerScore wBucket).positive_ratio ∧
        (providerScore wBucket).positive_ratio ≤ 1) ∧
      (0 ≤ (providerScore wBucket).negative_ratio ∧
        (providerScore wBucket).negative_ratio ≤ 1) ∧
      (providerScore wBucket).positive_ratio +
        (providerScore wBucket).negative_ratio ≤ 1) :=
  ⟨rfl, by decide,
    claim_C7_score_bounds wStore wRankings ("cost") (mkAspectRanking wScores)
      ("AWS") (providerScore wBucket) rfl (by simp [wRankings])
      (by simp [mkAspectRanking, wScores, sortByKeyDesc]) (by decide)⟩

/-! ### Success / failure characterisation of the ranking lookups -/

theorem buildScores_isSome_iff (aspect : String) :
    ∀ results : OpinionStore,
      (buildScores results aspect).isSome ↔
        ∀ pm ∈ results, (lookupA pm.2 aspect).isSome := by
  intro results
  induction results with
  | nil => simp [buildScores]
  | cons pm rest ih =>
    obtain ⟨p, amap⟩ := pm
    constructor
    · intro hsome
      simp only [buildScores] at hsome
      split at hsome
      next opinions tail h1 h2 =>
        intro qm hqm
        rcases List.mem_cons.mp hqm with hq | hq
        · rw [hq, h1]
          rfl
        · exact (ih.mp (by rw [h2]; rfl)) qm hq
      next => simp at hsome
    · intro hall
      have h1 : (lookupA amap aspect).isSome :=
        hall (p, amap) (List.mem_cons_self _ _)
      have h2 : (buildScores rest aspect).isSome :=
        ih.mpr fun qm hqm => hall qm (List.mem_cons_of_mem _ hqm)
      obtain ⟨opinions, ho⟩ := Option.isSome_iff_exists.mp h1
      obtain ⟨tail, ht⟩ := Option.isSome_iff_exists.mp h2
      simp [buildScores, ho, ht]

theorem buildRankings_isSome_iff (results : OpinionStore) :
    ∀ aspects : List String,
      (buildRankings results aspects).isSome ↔
        ∀ a ∈ aspects, (buildScores results a).isSome := by
  intro aspects
  induction aspects with
  | nil => simp [buildRankings]
  | cons a rest ih =>
    constructor
    · intro hsome
      simp only [buildRankings] at hsome
      split at hsome
      next provider_scores tail h1 h2 =>
        intro b hb
        rcases List.mem_cons.mp hb with hq | hq
        · rw [hq, h1]
          rfl
        · exact (ih.mp (by rw [h2]; rfl)) b hq
      next => simp at hsome
    · intro hall
      have h1 : (buildScores results a).isSome := hall a (List.mem_cons_self _ _)
      have h2 : (buildRankings results rest).isSome :=
        ih.mpr fun b hb => hall b (List.mem_cons_of_mem _ hb)
      obtain ⟨scores, ho⟩ := Option.isSome_iff_exists.mp h1
      obtain ⟨tail, ht⟩ := Option.isSome_iff_exists.mp h2
      simp [buildRankings, ho, ht]

/-- C9: `calculate_provider_rankings` takes its aspect set from the first
provider and then indexes every provider's mapping with it.  If every
provider's mapping answers every aspect key of the first provider's
mapping, the computation succeeds (no `KeyError` branch is reachable);
and the precondition is required: as soon as one provider lacks one of
those aspects, the whole call fails. -/
theorem claim_C9_aspect_lookup_precondition
    (p0 : String) (amap0 : AspectMap) (rest : OpinionStore) :
    ((∀ pm ∈ ((p0, amap0) :: rest : OpinionStore),
        ∀ a ∈ amap0.map Prod.fst, (lookupA pm.2 a).isSome) →
      (calculate_provider_rankings ((p0, amap0) :: rest)).isSome) ∧
    ((∃ pm ∈ ((p0, amap0) :: rest : OpinionStore),
        ∃ a ∈ amap0.map Prod.fst, lookupA pm.2 a = none) →
      calculate_provider_rankings ((p0, amap0) :: rest) = none) := by
  constructor
  · intro hall
    show (buildRankings ((p0, amap0) :: rest) (amap0.map Prod.fst)).isSome
    refine (buildRankings_isSome_iff _ _).mpr fun a ha => ?_
    exact (buildScores_isSome_iff a _).mpr fun pm hpm => hall pm hpm a ha
  · rintro ⟨pm, hpm, a, ha, hnone⟩
    have hno : ¬ (buildRankings ((p0, amap0) :: rest) (amap0.map Prod.fst)).isSome := by
      intro hsome
      have := ((buildScores_isSome_iff a _).mp
        ((buildRankings_isSome_iff _ _).mp hsome a ha)) pm hpm
      rw [hnone] at this
      exact absurd this (by simp)
    have : ¬ (calculate_provider_rankings ((p0, amap0) :: rest)).isSome := hno
    exact Option.not_isSome_iff_eq_none.mp this

theorem claim_C9_aspect_lookup_precondition_witness :
    ((∀ pm ∈ wStore, ∀ a ∈ [(("cost") : String)],
        (lookupA pm.2 a).isSome) ∧
      (calculate_provider_rankings wStore).isSome) ∧
    ((∃ pm ∈ wStoreBad, ∃ a ∈ [(("cost") : String)],
        lookupA pm.2 a = none) ∧
      calculate_provider_rankings wStoreBad = none) :=
  ⟨⟨by decide,
      (claim_C9_aspect_lookup_precondition ("AWS") [(("cost"), wBucket)]
        [(("Azure"), [(("cost"), [])])]).1 (by decide)⟩,
    ⟨by decide,
      (claim_C9_aspect_lookup_precondition ("AWS") [(("cost"), wBucket)]
        [(("Azure"), [(("support"), [])])]).2 (by decide)⟩⟩

/-! ### Helper lemmas about `calculate_overall_provider_rankings` -/

theorem collectProvider_length (p : String) :
    ∀ (ar : List (String × AspectRanking)) (pairs : List (ℚ × ℕ)),
      collectProvider ar p = some pairs → pairs.length = ar.length := by
  intro ar
  induction ar with
  | nil =>
    intro pairs h
    simp only [collectProvider, Option.some.injEq] at h
    subst h
    rfl
  | cons ad rest ih =>
    intro pairs h
    simp only [collectProvider] at h
    split at h
    next pd tail h1 h2 =>
      injection h with h3
      subst h3
      simp [ih tail h2]
    next => exact absurd h (by simp)

theorem overallScores_mem (ar : List (String × AspectRanking)) :
    ∀ (provs : List String) (out : List (String × ℚ)) (p : String) (s : ℚ),
      overallScores ar provs = some out → (p, s) ∈ out →
      ∃ pairs, collectProvider ar p = some pairs ∧ pairs ≠ [] ∧
        s = qmean (pairs.map Prod.fst) *
          qmin 1 ((((pairs.map Prod.snd).sum : ℕ) : ℚ) / 100) := by
  intro provs
  induction provs with
  | nil =>
    intro out p s h hm
    simp only [overallScores, Option.some.injEq] at h
    subst h
    simp at hm
  | cons q rest ih =>
    intro out p s h hm
    simp only [overallScores] at h
    split at h
    next pairs tail h1 h2 =>
      split at h
      next hemp =>
        injection h with h3
        subst h3
        exact ih tail p s h2 hm
      next hemp =>
        injection h with h3
        subst h3
        rcases List.mem_cons.mp hm with h4 | h4
        · have hp : p = q := congrArg Prod.fst h4
          have hval := congrArg Prod.snd h4
          subst hp
          have hne : pairs ≠ [] := by
            intro hnil
            subst hnil
            exact hemp rfl
          exact ⟨pairs, h1, hne, hval⟩
        · exact ih tail p s h2 h4
    next => exact absurd h (by simp)

theorem overallScores_complete (ar : List (String × AspectRanking)) :
    ∀ (provs : List String) (out : List (String × ℚ)) (p : String),
      overallScores ar provs = some out → p ∈ provs →
      ∃ pairs, collectProvider ar p = some pairs ∧
        (pairs.map Prod.fst ≠ [] →
          (p, qmean (pairs.map Prod.fst) *
            qmin 1 ((((pairs.map Prod.snd).sum : ℕ) : ℚ) / 100)) ∈ out) := by
  intro provs
  induction provs with
  | nil =>
    intro out p h hm
    simp at hm
  | cons q rest ih =>
    intro out p h hm
    simp only [overallScores] at h
    split at h
    next pairs tail h1 h2 =>
      rcases List.mem_cons.mp hm with h4 | h4
      · subst h4
        split at h
        next hemp =>
          refine ⟨pairs, h1, fun hne => ?_⟩
          exact absurd (List.isEmpty_iff.mp hemp) hne
        next hemp =>
          injection h with h3
          subst h3
          exact ⟨pairs, h1, fun _ => List.mem_cons_self _ _⟩
      · split at h
        next hemp =>
          injection h with h3
          subst h3
          exact ih _ p h2 h4
        next hemp =>
          injection h with h3
          subst h3
          obtain ⟨pairs2, hc2, hmem2⟩ := ih tail p h2 h4
          exact ⟨pairs2, hc2, fun hne => List.mem_cons_of_mem _ (hmem2 hne)⟩
    next => exact absurd h (by simp)

/-- C3: on a non-empty aspect-rankings input, every provider of the first
aspect receives the weighted score
`mean(sentiment_score over aspects) * min(1, total_opinions / 100)` (the
pairs collected by `collectProvider`), the output pairs are exactly such
scores sorted descending, and the empty input yields the empty sequence. -/
theorem claim_C3_overall_weighted_ranking
    (aspect_rankings : List (String × AspectRanking)) (out : List (String × ℚ))
    (h : calculate_overall_provider_rankings aspect_rankings = some out) :
    calculate_overall_provider_rankings [] = some [] ∧
    List.Pairwise (fun x y => y.2 ≤ x.2) out ∧
    (∀ p s, (p, s) ∈ out →
      ∃ pairs, collectProvider aspect_rankings p = some pairs ∧ pairs ≠ [] ∧
        s = qmean (pairs.map Prod.fst) *
          qmin 1 ((((pairs.map Prod.snd).sum : ℕ) : ℚ) / 100)) ∧
    (∀ first rest, aspect_rankings = first :: rest →
      ∀ p ∈ first.2.provider_scores.map Prod.fst,
        ∃ pairs, collectProvider aspect_rankings p = some pairs ∧
          (p, qmean (pairs.map Prod.fst) *
            qmin 1 ((((pairs.map Prod.snd).sum : ℕ) : ℚ) / 100)) ∈ out) := by
  cases aspect_rankings with
  | nil =>
    simp only [calculate_overall_provider_rankings, Option.some.injEq] at h
    subst h
    refine ⟨rfl, List.Pairwise.nil, ?_, ?_⟩
    · intro p s hm
      simp at hm
    · intro first rest heq
      exact absurd heq (by simp)
  | cons first rest =>
    obtain ⟨a0, ar0⟩ := first
    simp only [calculate_overall_provider_rankings] at h
    split at h
    next overall ho =>
      injection h with h3
      subst h3
      refine ⟨rfl, sorted_sortByKeyDesc Prod.snd overall, ?_, ?_⟩
      · intro p s hm
        have hm2 : (p, s) ∈ overall :=
          (perm_sortByKeyDesc Prod.snd overall).mem_iff.mp hm
        exact overallScores_mem _ _ overall p s ho hm2
      · intro first2 rest2 heq p hp
        injection heq with h5 h6
        have hp2 : p ∈ ar0.provider_scores.map Prod.fst := by
          rw [← h5] at hp
          exact hp
        obtain ⟨pairs, hc, hmem⟩ :=
          overallScores_complete _ _ overall p ho hp2
        have hlen := collectProvider_length p _ pairs hc
        have hne : pairs.map Prod.fst ≠ [] := by
          intro hnil
          have : pairs = [] := by
            cases pairs with
            | nil => rfl
            | cons x xs => simp at hnil
          rw [this] at hlen
          simp at hlen
        exact ⟨pairs, hc,
          (perm_sortByKeyDesc Prod.snd overall).mem_iff.mpr (hmem hne)⟩
    next => exact absurd h (by simp)

theorem claim_C3_overall_weighted_ranking_witness :
    calculate_overall_provider_rankings wAspectRankingsDamp =
      some [(("AWS"), (2/5 : ℚ))] ∧
    (calculate_overall_provider_rankings [] = some [] ∧
    List.Pairwise (fun x y => y.2 ≤ x.2) [((("AWS") : String), (2/5 : ℚ))] ∧
    (∀ p s, (p, s) ∈ [((("AWS") : String), (2/5 : ℚ))] →
      ∃ pairs, collectProvider wAspectRankingsDamp p = some pairs ∧ pairs ≠ [] ∧
        s = qmean (pairs.map Prod.fst) *
          qmin 1 ((((pairs.map Prod.snd).sum : ℕ) : ℚ) / 100)) ∧
    (∀ first rest, wAspectRankingsDamp = first :: rest →
      ∀ p ∈ first.2.provider_scores.map Prod.fst,
        ∃ pairs, collectProvider wAspectRankingsDamp p = some pairs ∧
          (p, qmean (pairs.map Prod.fst) *
            qmin 1 ((((pairs.map Prod.snd).sum : ℕ) : ℚ) / 100)) ∈
            [((("AWS") : String), (2/5 : ℚ))])) :=
  ⟨by with_unfolding_all rfl, claim_C3_overall_weighted_ranking wAspectRankingsDamp
    [(("AWS"), (2/5 : ℚ))] (by with_unfolding_all rfl)⟩

/-- C5: postprocessing an empty results mapping yields empty aspect
rankings, an empty overall ranking, an empty summary table, an empty
comparison matrix, and the single "no data available" insight; every
component succeeds (no exception, modelled by `some`). -/
theorem claim_C5_empty_input_fallback :
    postprocess_sentiment_results [] =
      some { aspect_rankings := []
             overall_rankings := []
             insights := [Insight.noData]
             comparative_summary := []
             comparison_matrix := ([], []) } := rfl

/-! ### Helper lemmas about `generate_comparative_insights` -/

theorem aspectLeadStep_eq (acc : List Insight) (entry : String × AspectRanking) :
    aspectLeadStep acc entry = acc ++ (perAspectInsight entry).toList := by
  unfold aspectLeadStep perAspectInsight
  by_cases hlen : entry.2.ranked_providers.length < 2
  · simp [hlen]
  · rw [if_neg hlen, if_neg hlen]
    cases hh : entry.2.ranked_providers.head? with
    | none => simp
    | some best =>
      cases hl : entry.2.ranked_providers.getLast? with
      | none => simp
      | some worst =>
        dsimp only
        by_cases hthr : 1/10 < best.2.sentiment_score - worst.2.sentiment_score
        · rw [if_pos hthr, if_pos hthr]
          rfl
        · rw [if_neg hthr, if_neg hthr]
          simp

theorem foldl_aspectLeadStep (l : List (String × AspectRanking)) :
    ∀ acc : List Insight,
      l.foldl aspectLeadStep acc = acc ++ l.filterMap perAspectInsight := by
  induction l with
  | nil => intro acc; simp
  | cons e t ih =>
    intro acc
    rw [List.foldl_cons, aspectLeadStep_eq, ih, List.filterMap_cons]
    cases h : perAspectInsight e <;> simp [h]

theorem varianceStep_eq (acc : List (String × ℚ)) (entry : String × AspectRanking) :
    varianceStep acc entry = acc ++ (varianceOpt entry).toList := by
  unfold varianceStep varianceOpt
  by_cases hlen : 1 < (entry.2.ranked_providers.map fun x => x.2.sentiment_score).length
  · rw [if_pos hlen, if_pos hlen]
    rfl
  · rw [if_neg hlen, if_neg hlen]
    simp

theorem foldl_varianceStep (l : List (String × AspectRanking)) :
    ∀ acc : List (String × ℚ),
      l.foldl varianceStep acc = acc ++ l.filterMap varianceOpt := by
  induction l with
  | nil => intro acc; simp
  | cons e t ih =>
    intro acc
    rw [List.foldl_cons, varianceStep_eq, ih, List.filterMap_cons]
    cases h : varianceOpt e <;> simp [h]

theorem aspect_variances_eq (l : List (String × AspectRanking)) :
    aspect_variances l = l.filterMap varianceOpt := by
  rw [aspect_variances, foldl_varianceStep]
  rfl

theorem foldl_maxStep_mem :
    ∀ (xs : List (String × ℚ)) (x : String × ℚ),
      xs.foldl maxStep x = x ∨ xs.foldl maxStep x ∈ xs := by
  intro xs
  induction xs with
  | nil => intro x; exact Or.inl rfl
  | cons y ys ih =>
    intro x
    rw [List.foldl_cons]
    rcases ih (maxStep x y) with h | h
    · by_cases hc : x.2 < y.2
      · right
        rw [h]
        simp only [maxStep, if_pos hc]
        exact List.mem_cons_self _ _
      · left
        rw [h]
        simp only [maxStep, if_neg hc]
    · right
      exact List.mem_cons_of_mem _ h

theorem foldl_maxStep_ge :
    ∀ (xs : List (String × ℚ)) (x y : String × ℚ),
      (y = x ∨ y ∈ xs) → y.2 ≤ (xs.foldl maxStep x).2 := by
  intro xs
  induction xs with
  | nil =>
    intro x y h
    rcases h with rfl | h
    · exact le_refl _
    · simp at h
  | cons z zs ih =>
    intro x y h
    rw [List.foldl_cons]
    have hx : x.2 ≤ (maxStep x z).2 := by
      by_cases hc : x.2 < z.2
      · simp only [maxStep, if_pos hc]
        exact le_of_lt hc
      · simp only [maxStep, if_neg hc]
        exact le_refl _
    have hz : z.2 ≤ (maxStep x z).2 := by
      by_cases hc : x.2 < z.2
      · simp only [maxStep, if_pos hc]
        exact le_refl _
      · simp only [maxStep, if_neg hc]
        exact le_of_not_lt hc
    rcases h with hy | h
    · rw [hy]
      exact le_trans hx (ih (maxStep x z) (maxStep x z) (Or.inl rfl))
    · rcases List.mem_cons.mp h with hy | hmem
      · rw [hy]
        exact le_trans hz (ih (maxStep x z) (maxStep x z) (Or.inl rfl))
      · exact ih (maxStep x z) y (Or.inr hmem)

/-- Python's `max(items, key=...)` on a non-empty list returns a member
whose key bounds every member's key. -/
theorem firstMaxBySnd_spec (l : List (String × ℚ)) (hne : l ≠ []) :
    ∃ mc, firstMaxBySnd l = some mc ∧ mc ∈ l ∧ ∀ x ∈ l, x.2 ≤ mc.2 := by
  cases l with
  | nil => exact absurd rfl hne
  | cons x xs =>
    refine ⟨xs.foldl maxStep x, rfl, ?_, ?_⟩
    · rcases foldl_maxStep_mem xs x with h | h
      · rw [h]
        exact List.mem_cons_self _ _
      · exact List.mem_cons_of_mem _ h
    · intro z hz
      rcases List.mem_cons.mp hz with rfl | h
      · exact foldl_maxStep_ge xs z z (Or.inl rfl)
      · exact foldl_maxStep_ge xs x z (Or.inr h)

/-- The two loops of `generate_comparative_insights`, flattened: on
non-empty input the result is the per-aspect statements in input order,
followed by the controversial-aspect statement when any deviation was
recorded. -/
theorem generate_insights_decomp (rankings : List (String × AspectRanking))
    (hne : rankings ≠ []) :
    generate_comparative_insights rankings =
      rankings.filterMap perAspectInsight ++
        ((firstMaxBySnd (aspect_variances rankings)).map
          (fun mc => Insight.mostControversial mc.1)).toList := by
  have h0 : rankings.isEmpty = false := by
    cases rankings with
    | nil => exact absurd rfl hne
    | cons a t => rfl
  unfold generate_comparative_insights
  rw [h0]
  cases hf : firstMaxBySnd (aspect_variances rankings) <;>
    simp [hf, foldl_aspectLeadStep]

theorem perAspectInsight_shape (entry : String × AspectRanking) (i : Insight)
    (h : perAspectInsight entry = some i) :
    ∃ a b w br wr, i = Insight.aspectLead a b w br wr := by
  unfold perAspectInsight at h
  by_cases hlen : entry.2.ranked_providers.length < 2
  · rw [if_pos hlen] at h
    exact absurd h (by simp)
  · rw [if_neg hlen] at h
    cases hh : entry.2.ranked_providers.head? with
    | none =>
      rw [hh] at h
      cases hl : entry.2.ranked_providers.getLast? <;> rw [hl] at h <;> simp at h
    | some best =>
      rw [hh] at h
      cases hl : entry.2.ranked_providers.getLast? with
      | none =>
        rw [hl] at h
        simp at h
      | some worst =>
        rw [hl] at h
        dsimp only at h
        by_cases hthr : 1/10 < best.2.sentiment_score - worst.2.sentiment_score
        · rw [if_pos hthr] at h
          injection h with h2
          exact ⟨entry.1, best.1, worst.1, best.2.positive_ratio,
            worst.2.positive_ratio, h2.symm⟩
        · rw [if_neg hthr] at h
          exact absurd h (by simp)

/-- In an association list with distinct keys, a key determines its
value. -/
theorem assoc_nodup_unique {β : Type} :
    ∀ (l : List (String × β)), (l.map Prod.fst).Nodup →
      ∀ (k : String) (a b : β), (k, a) ∈ l → (k, b) ∈ l → a = b := by
  intro l
  induction l with
  | nil =>
    intro _ k a b ha
    simp at ha
  | cons x t ih =>
    intro hnd k a b ha hb
    rw [List.map_cons, List.nodup_cons] at hnd
    rcases List.mem_cons.mp ha with ha | ha <;> rcases List.mem_cons.mp hb with hb | hb
    · exact congrArg Prod.snd (ha.trans hb.symm)
    · exact absurd ((congrArg Prod.fst ha) ▸ List.mem_map.mpr ⟨(k, b), hb, rfl⟩) hnd.1
    · exact absurd ((congrArg Prod.fst hb) ▸ List.mem_map.mpr ⟨(k, a), ha, rfl⟩) hnd.1
    · exact ih hnd.2 k a b ha hb

/-- C8: whenever at least one aspect recorded a deviation (computed, per
aspect with ≥ 2 providers, as the sample variance of the per-provider
sentiment scores — the square of `statistics.stdev`, so maximal variance
is maximal standard deviation), `generate_comparative_insights` emits
exactly one "most controversial aspect" statement, naming a recorded
aspect whose deviation — and hence whose standard deviation `√variance` —
is maximal; it is the last element, after the per-aspect statements, which
appear in aspect-iteration order (the `filterMap` over the input). -/
theorem claim_C8_most_controversial
    (rankings : List (String × AspectRanking)) (hne : rankings ≠ [])
    (hv : aspect_variances rankings ≠ []) :
    ∃ mc, firstMaxBySnd (aspect_variances rankings) = some mc ∧
      mc ∈ aspect_variances rankings ∧
      (∀ x ∈ aspect_variances rankings, x.2 ≤ mc.2) ∧
      (∀ x ∈ aspect_variances rankings,
        Real.sqrt (x.2 : ℝ) ≤ Real.sqrt (mc.2 : ℝ)) ∧
      aspect_variances rankings = rankings.filterMap varianceOpt ∧
      generate_comparative_insights rankings =
        rankings.filterMap perAspectInsight ++ [Insight.mostControversial mc.1] ∧
      (∀ i ∈ rankings.filterMap perAspectInsight,
        ∃ a b w br wr, i = Insight.aspectLead a b w br wr) := by
  obtain ⟨mc, hf, hmem, hmax⟩ := firstMaxBySnd_spec _ hv
  refine ⟨mc, hf, hmem, hmax, ?_, aspect_variances_eq rankings, ?_, ?_⟩
  · intro x hx
    exact Real.sqrt_le_sqrt (by exact_mod_cast hmax x hx)
  · rw [generate_insights_decomp rankings hne, hf]
    rfl
  · intro i hi
    obtain ⟨entry, _, he⟩ := List.mem_filterMap.mp hi
    exact perAspectInsight_shape entry i he

theorem claim_C8_most_controversial_witness :
    wRankingsGap ≠ [] ∧ aspect_variances wRankingsGap ≠ [] ∧
    (∃ mc, firstMaxBySnd (aspect_variances wRankingsGap) = some mc ∧
      mc ∈ aspect_variances wRankingsGap ∧
      (∀ x ∈ aspect_variances wRankingsGap, x.2 ≤ mc.2) ∧
      (∀ x ∈ aspect_variances wRankingsGap,
        Real.sqrt (x.2 : ℝ) ≤ Real.sqrt (mc.2 : ℝ)) ∧
      aspect_variances wRankingsGap = wRankingsGap.filterMap varianceOpt ∧
      generate_comparative_insights wRankingsGap =
        wRankingsGap.filterMap perAspectInsight ++
          [Insight.mostControversial mc.1] ∧
      (∀ i ∈ wRankingsGap.filterMap perAspectInsight,
        ∃ a b w br wr, i = Insight.aspectLead a b w br wr)) :=
  ⟨by simp [wRankingsGap], by with_unfolding_all decide,
    claim_C8_most_controversial wRankingsGap (by simp [wRankingsGap])
      (by with_unfolding_all decide)⟩

/-- C10: any input containing an aspect with at least two ranked providers
makes `generate_comparative_insights` emit the "most controversial aspect"
statement — even with all scores equal (variance 0), since the emission is
conditioned only on a deviation having been recorded, not on its size —
so the returned list is never empty for such inputs. -/
theorem claim_C10_controversial_unconditional
    (rankings : List (String × AspectRanking)) (a : String) (d : AspectRanking)
    (hm : (a, d) ∈ rankings) (h2 : 2 ≤ d.ranked_providers.length) :
    (∃ mc, firstMaxBySnd (aspect_variances rankings) = some mc ∧
      generate_comparative_insights rankings =
        rankings.filterMap perAspectInsight ++
          [Insight.mostControversial mc.1]) ∧
    generate_comparative_insights rankings ≠ [] := by
  have hne : rankings ≠ [] := by
    intro h
    subst h
    simp at hm
  have hvmem : varianceOpt (a, d) =
      some (a, sampleVariance (d.ranked_providers.map fun x => x.2.sentiment_score)) := by
    unfold varianceOpt
    have hl : 1 < (d.ranked_providers.map fun x => x.2.sentiment_score).length := by
      rw [List.length_map]
      omega
    rw [if_pos hl]
  have hv : aspect_variances rankings ≠ [] := by
    rw [aspect_variances_eq]
    intro hnil
    have hmem2 : (a, sampleVariance (d.ranked_providers.map fun x => x.2.sentiment_score)) ∈
        rankings.filterMap varianceOpt :=
      List.mem_filterMap.mpr ⟨(a, d), hm, hvmem⟩
    rw [hnil] at hmem2
    simp at hmem2
  obtain ⟨mc, hf, _, _⟩ := firstMaxBySnd_spec _ hv
  have hdec := generate_insights_decomp rankings hne
  rw [hf] at hdec
  refine ⟨⟨mc, hf, hdec⟩, ?_⟩
  rw [hdec]
  simp

theorem claim_C10_controversial_unconditional_witness :
    ((("cost") : String), mkAspectRanking wScoresGap) ∈ wRankingsGap ∧
    2 ≤ (mkAspectRanking wScoresGap).ranked_providers.length ∧
    ((∃ mc, firstMaxBySnd (aspect_variances wRankingsGap) = some mc ∧
      generate_comparative_insights wRankingsGap =
        wRankingsGap.filterMap perAspectInsight ++
          [Insight.mostControversial mc.1]) ∧
    generate_comparative_insights wRankingsGap ≠ []) := by
  have h2 : 2 ≤ (mkAspectRanking wScoresGap).ranked_providers.length := by
    have hp := (perm_sortByKeyDesc sentKey wScoresGap).length_eq
    rw [(mkAspectRanking_fields wScoresGap).2.1, hp, wScoresGap]
    rfl
  exact ⟨by simp [wRankingsGap], h2,
    claim_C10_controversial_unconditional wRankingsGap ("cost")
      (mkAspectRanking wScoresGap) (by simp [wRankingsGap]) h2⟩

/-- C4: for an aspect of the rankings (keys distinct, as dict keys are),
a per-aspect statement naming a best and worst provider with their
positive ratios is in the generated insights iff that aspect has at least
two ranked providers, the named data is its head/last ranked entry, and
the best-worst sentiment gap strictly exceeds 0.1; so aspects with fewer
than two providers, or a gap of at most 0.1, contribute no statement. -/
theorem claim_C4_insight_threshold
    (rankings : List (String × AspectRanking))
    (hnd : (rankings.map Prod.fst).Nodup)
    (aspect : String) (data : AspectRanking)
    (hm : (aspect, data) ∈ rankings) (bp wp : String) (br wr : ℚ) :
    Insight.aspectLead aspect bp wp br wr ∈ generate_comparative_insights rankings ↔
      ∃ best worst, data.ranked_providers.head? = some best ∧
        data.ranked_providers.getLast? = some worst ∧
        2 ≤ data.ranked_providers.length ∧
        1/10 < best.2.sentiment_score - worst.2.sentiment_score ∧
        bp = best.1 ∧ wp = worst.1 ∧ br = best.2.positive_ratio ∧
        wr = worst.2.positive_ratio := by
  have hne : rankings ≠ [] := by
    intro h
    subst h
    simp at hm
  rw [generate_insights_decomp rankings hne]
  constructor
  · intro hmem
    rcases List.mem_append.mp hmem with hmem | hmem
    · obtain ⟨entry, hent, he⟩ := List.mem_filterMap.mp hmem
      obtain ⟨e0, d0⟩ := entry
      unfold perAspectInsight at he
      dsimp only at he
      by_cases hlen : d0.ranked_providers.length < 2
      · rw [if_pos hlen] at he
        exact absurd he (by simp)
      · rw [if_neg hlen] at he
        cases hh : d0.ranked_providers.head? with
        | none =>
          rw [hh] at he
          cases hl : d0.ranked_providers.getLast? <;> rw [hl] at he <;> simp at he
        | some best =>
          rw [hh] at he
          cases hl : d0.ranked_providers.getLast? with
          | none =>
            rw [hl] at he
            simp at he
          | some worst =>
            rw [hl] at he
            dsimp only at he
            by_cases hthr : 1/10 < best.2.sentiment_score - worst.2.sentiment_score
            · rw [if_pos hthr] at he
              injection he with he2
              injection he2 with e1 e2 e3 e4 e5
              subst e1
              have hd : d0 = data :=
                assoc_nodup_unique rankings hnd e0 d0 data hent hm
              subst hd
              exact ⟨best, worst, hh, hl, by omega, hthr,
                e2.symm, e3.symm, e4.symm, e5.symm⟩
            · rw [if_neg hthr] at he
              exact absurd he (by simp)
    · cases hf : firstMaxBySnd (aspect_variances rankings) <;>
        rw [hf] at hmem <;> simp at hmem
  · rintro ⟨best, worst, hh, hl, hlen2, hthr, hbp, hwp, hbr, hwr⟩
    apply List.mem_append_left
    refine List.mem_filterMap.mpr ⟨(aspect, data), hm, ?_⟩
    unfold perAspectInsight
    dsimp only
    rw [if_neg (by omega), hh, hl]
    dsimp only
    rw [if_pos hthr, hbp, hwp, hbr, hwr]

theorem claim_C4_insight_threshold_witness :
    Insight.aspectLead ("cost") ("AWS") ("Azure") 1 0 ∈
      generate_comparative_insights wRankingsGap :=
  (claim_C4_insight_threshold wRankingsGap (by simp [wRankingsGap])
    ("cost") (mkAspectRanking wScoresGap) (by simp [wRankingsGap])
    ("AWS") ("Azure") 1 0).mpr
    ⟨(("AWS"), providerScore [wRec ("Positive") 1]),
     (("Azure"), providerScore [wRec ("Negative") 1]),
     by with_unfolding_all rfl, by with_unfolding_all rfl,
     by with_unfolding_all decide, by with_unfolding_all decide,
     rfl, rfl, by with_unfolding_all rfl, by with_unfolding_all rfl⟩

/-- C6: a sentence of the tokenized text is in the output of
`extract_relevant_sentences` iff it contains the provider name as a
case-insensitive whole-word match and at least one keyword under the same
rule ("AI" does not match inside "mainframe"), and missing (`none`) or
empty text yields the empty sequence (the function is total: it never
raises).  The tokenizer is the external `nltk.sent_tokenize`
collaborator, assumed only to return no sentences for empty input. -/
theorem claim_C6_whole_word_extraction
    (sent_tokenize : String → List String) (htok : sent_tokenize ("") = [])
    (text : Option String) (provider : String) (keywords : List String) :
    (∀ s, s ∈ extract_relevant_sentences sent_tokenize text provider keywords ↔
      (s ∈ sent_tokenize (text.getD ("")) ∧
        contains_whole_word provider s = true ∧
        ∃ kw ∈ keywords, contains_whole_word kw s = true)) ∧
    extract_relevant_sentences sent_tokenize none provider keywords = [] ∧
    extract_relevant_sentences sent_tokenize (some ("")) provider keywords = [] ∧
    contains_whole_word ("AI") ("mainframe is nice") = false ∧
    contains_whole_word ("AI") ("AI is powerful") = true ∧
    contains_whole_word ("powerful") ("AI is powerful") = true := by
  refine ⟨?_, ?_, ?_, by decide, by decide, by decide⟩
  · intro s
    unfold extract_relevant_sentences
    rw [List.mem_filter]
    constructor
    · rintro ⟨h1, h2⟩
      rw [Bool.and_eq_true] at h2
      obtain ⟨kw, hkw, hc⟩ := List.any_eq_true.mp h2.2
      exact ⟨h1, h2.1, kw, hkw, hc⟩
    · rintro ⟨h1, h2, kw, hkw, hc⟩
      refine ⟨h1, ?_⟩
      rw [Bool.and_eq_true]
      exact ⟨h2, List.any_eq_true.mpr ⟨kw, hkw, hc⟩⟩
  · unfold extract_relevant_sentences
    rw [show ((none : Option String).getD ("")) = ("") from rfl, htok]
    rfl
  · unfold extract_relevant_sentences
    rw [show ((some ("") : Option String).getD ("")) = ("") from rfl, htok]
    rfl

theorem claim_C6_whole_word_extraction_witness :
    wTok ("") = [] ∧
    ((∀ s, s ∈ extract_relevant_sentences wTok (some ("AI is powerful"))
          ("AI") [("powerful")] ↔
      (s ∈ wTok ((some ("AI is powerful")).getD ("")) ∧
        contains_whole_word ("AI") s = true ∧
        ∃ kw ∈ [("powerful")], contains_whole_word kw s = true)) ∧
    extract_relevant_sentences wTok none ("AI") [("powerful")] = [] ∧
    extract_relevant_sentences wTok (some ("")) ("AI") [("powerful")] = [] ∧
    contains_whole_word ("AI") ("mainframe is nice") = false ∧
    contains_whole_word ("AI") ("AI is powerful") = true ∧
    contains_whole_word ("powerful") ("AI is powerful") = true) :=
  ⟨rfl, claim_C6_whole_word_extraction wTok rfl (some ("AI is powerful"))
    ("AI") [("powerful")]⟩
